import Mathlib

/-!
Verification of the biz-error error-catalog compiler.

The repository has two front-ends that transform a parsed YAML document
into Rust source text for an `ErrorCode` enum:

* `generate_from_config` in `src/codegen.rs` (string emitter, used from
  `build.rs`), and
* `generate_error_codes_impl` in `biz-error-macros/src/lib.rs` (token-stream
  emitter, used by the attribute proc-macro).

We embed both shallowly.  A parsed YAML document is modelled by the
inductive `Yaml` below, restricted to the constructors the two generators
actually consume (`as_str`, `as_i64`, `as_mapping`, and indexing): strings,
integers, mappings, and null.  Every other `serde_yaml::Value` constructor
(bool, float, sequence, tagged) answers `None` to all three accessors used
by the code, exactly as `null` does, so `null` stands for all of them.

The generators build four pieces of Rust text: the enum variants, the
`code()` match arms, the `message_lang()` match arms and the
`http_status()` match arms, plus the `ALL_ERROR_CODES` constant.  We model
the emitted text by its semantic content — the ordered arm lists — in the
structure `Generated`, and model the generated match expressions by
first-arm-wins lookup functions (`code_fn`, `message_lang_fn`, ...), which
is the semantics of a Rust `match`.

Machine integers: YAML integers are read with `as_i64`; we model `i64`
values as `Int` (the generators never do `i64` arithmetic, only casts).
The proc-macro's `code as i32` and `http_status as u16` casts are modelled
by the wrapping functions `i64_as_i32` and `i64_as_u16`.

Character case: `to_pascal_case` uses Rust `char::to_uppercase`; we model
it with `Char.toUpper`, which agrees with Rust on ASCII (all raw names in
this development are ASCII).
-/

/-- A parsed YAML value, restricted to what the generators consume.
`null` also stands for every `serde_yaml::Value` constructor on which
`as_str`, `as_i64` and `as_mapping` all return `None`. -/
inductive Yaml : Type where
  | null : Yaml
  | str : String → Yaml
  | int : Int → Yaml
  | map : List (Yaml × Yaml) → Yaml
deriving Repr

/-- `Value::as_str`. -/
def Yaml.asStr : Yaml → Option String
  | .str s => some s
  | _ => none

/-- `Value::as_i64` (we model `i64` as `Int`). -/
def Yaml.asI64 : Yaml → Option Int
  | .int i => some i
  | _ => none

/-- `Value::as_mapping`, as the ordered key/value list (serde_yaml
mappings are insertion-ordered `IndexMap`s, so `for (k, v) in mapping`
iterates in document order). -/
def Yaml.asMapping : Yaml → Option (List (Yaml × Yaml))
  | .map m => some m
  | _ => none

/-- Whether a YAML key equals `Value::String(k)`: only a string key can
compare equal to a string key. -/
def Yaml.isStrKey : Yaml → String → Bool
  | .str s, k => s == k
  | _, _ => false

/-- `value[k]` (`Index<&str>` on `serde_yaml::Value`): look the string key
up in a mapping, yielding `Null` when the value is not a mapping or the
key is absent. -/
def Yaml.idx (v : Yaml) (k : String) : Yaml :=
  match v with
  | .map m => (((m.find? (fun p => p.1.isStrKey k)).map Prod.snd).getD .null)
  | _ => .null

/-- Rust `str::split` with a single-character pattern, on the character
list: splitting yields one (possibly empty) piece per gap, e.g.
`"a__b" ↦ ["a", "", "b"]` and `"" ↦ [""]`. -/
def splitOnChar (c : Char) : List Char → List (List Char)
  | [] => [[]]
  | x :: xs =>
    match splitOnChar c xs, x == c with
    | r, true => [] :: r
    | [], false => [[x]]
    | w :: ws, false => (x :: w) :: ws

/-- `to_pascal_case` from `src/codegen.rs` (the proc-macro crate contains
the identical string computation, before wrapping the result in an
`Ident`): split on `'_'`, uppercase the first character of every piece,
concatenate. -/
def to_pascal_case (s : String) : String :=
  String.join ((splitOnChar '_' s.data).map (fun word =>
    match word with
    | [] => ""
    | first :: rest => String.mk (first.toUpper :: rest)))

/-- `messages.get(Value::String(default_lang)).and_then(|v| v.as_str()).unwrap_or("")`:
the default-language text of an entry, or empty if absent / not a string.
Both generators compute this twice per entry (once for the doc comment,
once for the wildcard fallback arm), with this exact expression. -/
def defaultMsg (messages : List (Yaml × Yaml)) (defaultLang : String) : String :=
  ((((messages.find? (fun p => p.1.isStrKey defaultLang)).map Prod.snd).bind Yaml.asStr).getD "")

/-- The data both generators extract from one `errors` entry before
emitting its arms. -/
structure GenEntry : Type where
  /-- PascalCase variant name derived from the raw key. -/
  name : String
  /-- Doc-comment text placed on the variant (default-language message). -/
  docMsg : String
  /-- The value emitted in the `code()` arm. -/
  code : Int
  /-- The value emitted in the `http_status()` arm. -/
  httpStatus : Int
  /-- The declared `(language, text)` pairs, in document order. -/
  msgs : List (String × String)
  /-- The text of the trailing wildcard `message_lang` arm. -/
  fallbackMsg : String
deriving Repr, DecidableEq

/-- The inner `for (lang, msg) in messages` loop: each language key and
message value must be a string, errors abort the whole generation. -/
def extractMessages : List (Yaml × Yaml) → Except String (List (String × String))
  | [] => .ok []
  | (lang, msg) :: rest =>
    match lang.asStr with
    | none => .error "Language key must be a string"
    | some langStr =>
      match msg.asStr with
      | none => .error "Message value must be a string"
      | some msgStr =>
        match extractMessages rest with
        | .error e => .error e
        | .ok restOut => .ok ((langStr, msgStr) :: restOut)

/-- The body of `generate_from_config`'s `for (key, value) in errors` loop
(string emitter, `src/codegen.rs` lines 84–124): extract name, `code`
(required), `http_status` (default 500), `message` mapping (required),
derive the PascalCase name, the doc text, the per-language arms and the
fallback text.  The emitted `code()` arm carries the raw `i64` value and
the emitted `http_status()` arm carries the raw `i64` value (spliced into
`StatusCode::from_u16({})`). -/
def genEntries (defaultLang : String) : List (Yaml × Yaml) → Except String (List GenEntry)
  | [] => .ok []
  | (key, value) :: rest =>
    match key.asStr with
    | none => .error "Error key must be a string"
    | some name =>
      match (value.idx "code").asI64 with
      | none => .error "Missing 'code' field"
      | some code =>
        let httpStatus := ((value.idx "http_status").asI64).getD 500
        match (value.idx "message").asMapping with
        | none => .error "Missing 'message' field"
        | some messages =>
          let enumName := to_pascal_case name
          let docMsg := defaultMsg messages defaultLang
          match extractMessages messages with
          | .error e => .error e
          | .ok msgs =>
            let fallbackMsg := defaultMsg messages defaultLang
            match genEntries defaultLang rest with
            | .error e => .error e
            | .ok restOut =>
              .ok ({ name := enumName, docMsg := docMsg, code := code,
                     httpStatus := httpStatus, msgs := msgs,
                     fallbackMsg := fallbackMsg } :: restOut)

/-- Rust `as i32` applied to an `i64`: two's-complement truncation. -/
def i64_as_i32 (c : Int) : Int := (c + 2 ^ 31) % 2 ^ 32 - 2 ^ 31

/-- Rust `as u16` applied to an `i64`: modular truncation. -/
def i64_as_u16 (c : Int) : Int := c % 2 ^ 16

/-- The body of `generate_error_codes_impl`'s `for (key, value) in errors`
loop (token emitter, `biz-error-macros/src/lib.rs` lines 100–149).  It is
the same extraction as `genEntries` except that the `code()` arm carries
`code as i32` and the `http_status()` arm carries `http_status as u16`
(the macro also wraps the variant name in a `proc_macro2::Ident`, whose
well-formedness we do not model). -/
def genEntriesMacro (defaultLang : String) : List (Yaml × Yaml) → Except String (List GenEntry)
  | [] => .ok []
  | (key, value) :: rest =>
    match key.asStr with
    | none => .error "Error key must be a string"
    | some name =>
      match (value.idx "code").asI64 with
      | none => .error "Missing 'code' field"
      | some code =>
        let codeI32 := i64_as_i32 code
        let httpStatus := ((value.idx "http_status").asI64).getD 500
        let httpStatusU16 := i64_as_u16 httpStatus
        match (value.idx "message").asMapping with
        | none => .error "Missing 'message' field"
        | some messages =>
          let enumName := to_pascal_case name
          let docMsg := defaultMsg messages defaultLang
          match extractMessages messages with
          | .error e => .error e
          | .ok msgs =>
            let fallbackMsg := defaultMsg messages defaultLang
            match genEntriesMacro defaultLang rest with
            | .error e => .error e
            | .ok restOut =>
              .ok ({ name := enumName, docMsg := docMsg, code := codeI32,
                     httpStatus := httpStatusU16, msgs := msgs,
                     fallbackMsg := fallbackMsg } :: restOut)

/-- One arm of the generated `message_lang` match:
`(ErrorCode::variant, "lang") => "text"` when `lang = some l`, or the
wildcard arm `(ErrorCode::variant, _) => "text"` when `lang = none`. -/
structure MsgArm : Type where
  variant : String
  lang : Option String
  text : String
deriving Repr, DecidableEq

/-- The `message_lang` arms one entry contributes, in emission order: one
exact arm per declared language, then the wildcard fallback arm. -/
def armsOfEntry (e : GenEntry) : List MsgArm :=
  (e.msgs.map (fun p => { variant := e.name, lang := some p.1, text := p.2 }))
    ++ [{ variant := e.name, lang := none, text := e.fallbackMsg }]

/-- The semantic content of the generated Rust source: the ordered arm
lists of the four generated functions, the variant list (with doc text)
and `ALL_ERROR_CODES`. -/
structure Generated : Type where
  defaultLang : String
  /-- `(doc text, variant name)` in declaration order. -/
  variants : List (String × String)
  /-- Arms of `fn code`: `ErrorCode::name => value`. -/
  codeArms : List (String × Int)
  /-- Arms of `fn message_lang`, in emission order. -/
  messageArms : List MsgArm
  /-- Arms of `fn http_status`: `ErrorCode::name => StatusCode::from_u16(value).unwrap()`. -/
  statusArms : List (String × Int)
  /-- `ALL_ERROR_CODES`, in declaration order. -/
  allCodes : List String
deriving Repr, DecidableEq

/-- Assembling the generated unit from the per-entry data, in declaration
order (the Rust code appends to its accumulators inside the single loop;
per accumulator this is exactly a map / flat-map over the entry list). -/
def assemble (defaultLang : String) (es : List GenEntry) : Generated :=
  { defaultLang := defaultLang
    variants := es.map (fun e => (e.docMsg, e.name))
    codeArms := es.map (fun e => (e.name, e.code))
    messageArms := es.flatMap armsOfEntry
    statusArms := es.map (fun e => (e.name, e.httpStatus))
    allCodes := es.map (fun e => e.name) }

/-- `generate_from_config` (`src/codegen.rs`): require the `errors`
mapping, read `default_language` (default `"en"`), process the entries,
emit.  The returned `Generated` is the semantic content of the emitted
source string. -/
def generate_from_config (config : Yaml) : Except String Generated :=
  match (config.idx "errors").asMapping with
  | none => .error "Missing 'errors' section in YAML"
  | some errors =>
    let defaultLang := ((config.idx "default_language").asStr).getD "en"
    match genEntries defaultLang errors with
    | .error e => .error e
    | .ok es => .ok (assemble defaultLang es)

/-- `generate_error_codes_impl` (`biz-error-macros/src/lib.rs`), applied
to the already-parsed YAML document (the Rust function also performs the
file read and parse, which we do not model): identical structure to
`generate_from_config`, but with the macro's `as i32` / `as u16` casts. -/
def generate_error_codes_impl (config : Yaml) : Except String Generated :=
  match (config.idx "errors").asMapping with
  | none => .error "Missing 'errors' section in YAML"
  | some errors =>
    let defaultLang := ((config.idx "default_language").asStr).getD "en"
    match genEntriesMacro defaultLang errors with
    | .error e => .error e
    | .ok es => .ok (assemble defaultLang es)

/-- Whether a `message_lang` arm matches the scrutinee `(v, lang)`:
the variant must match, and an exact arm additionally requires its
language literal to equal `lang` (a wildcard arm always matches its
variant). -/
def armMatches (a : MsgArm) (v lang : String) : Bool :=
  a.variant == v && (match a.lang with
    | none => true
    | some l => l == lang)

/-- The generated `fn code`: first matching arm wins (Rust `match`
semantics); `none` when no arm matches (impossible for a variant of the
generated enum). -/
def code_fn (g : Generated) (v : String) : Option Int :=
  ((g.codeArms.find? (fun a => a.1 == v)).map Prod.snd)

/-- The generated `fn message_lang`: first matching arm wins. -/
def message_lang_fn (g : Generated) (v lang : String) : Option String :=
  ((g.messageArms.find? (fun a => armMatches a v lang)).map MsgArm.text)

/-- The generated `fn message`: `self.message_lang(default_lang)`. -/
def message_fn (g : Generated) (v : String) : Option String :=
  message_lang_fn g v g.defaultLang

/-- `axum::http::StatusCode::from_u16`: succeeds exactly on 100..=999. -/
def statusCode_from_u16 (s : Int) : Option Int :=
  if 100 ≤ s ∧ s ≤ 999 then some s else none

/-- The generated `fn http_status`: first matching arm wins, then the arm
body runs `StatusCode::from_u16(value).unwrap()`; `none` models both a
missing arm and the runtime panic of `unwrap` on an out-of-range value. -/
def http_status_fn (g : Generated) (v : String) : Option Int :=
  ((g.statusArms.find? (fun a => a.1 == v)).bind (fun a => statusCode_from_u16 a.2))

/-!
## The `AppError` wrapper (`src/lib.rs`)

`AppError<E: ErrorCode>` pairs a generated error code with an optional
custom message and optional structured payload.  The `ErrorCode` trait is
modelled as a typeclass of the three lookup methods the wrapper uses; the
`serde_json::Value` payload is modelled by a minimal JSON value type (its
structure is irrelevant to the wrapper, which only stores it).
-/

/-- A minimal model of `serde_json::Value` (the wrapper only stores and
returns these, never inspects them). -/
inductive JsonValue : Type where
  | null : JsonValue
  | bool : Bool → JsonValue
  | num : Int → JsonValue
  | str : String → JsonValue
  | arr : List JsonValue → JsonValue
  | obj : List (String × JsonValue) → JsonValue
deriving Repr

/-- The `ErrorCode` trait of `src/lib.rs`: the interface every generated
enum implements. -/
class ErrorCodeClass (E : Type) : Type where
  code : E → Int
  message : E → String
  message_lang : E → String → String

/-- `AppError<E>` (`src/lib.rs` lines 242–250). -/
structure AppError (E : Type) : Type where
  error_code : E
  custom_msg : Option String
  data : Option JsonValue

namespace AppError

variable {E : Type}

/-- `AppError::new`: no custom message, no data. -/
def new (error_code : E) : AppError E :=
  { error_code := error_code, custom_msg := none, data := none }

/-- `AppError::with_msg`: set the custom message. -/
def with_msg (a : AppError E) (msg : String) : AppError E :=
  { a with custom_msg := some msg }

/-- `AppError::with_data`: set the payload. -/
def with_data (a : AppError E) (d : JsonValue) : AppError E :=
  { a with data := some d }

/-- `AppError::code`: delegate to the error code's `code()`. -/
def code [ErrorCodeClass E] (a : AppError E) : Int :=
  ErrorCodeClass.code a.error_code

/-- `AppError::msg`: the custom message if set, otherwise the error
code's default-language `message()`. -/
def msg [ErrorCodeClass E] (a : AppError E) : String :=
  a.custom_msg.getD (ErrorCodeClass.message a.error_code)

end AppError

/-!
## Extraction lemmas

`entrySpec dl kv e` records exactly what the generator loop extracts from
a raw `errors` entry `kv` into the per-entry data `e`; `genEntries`
succeeds precisely when every entry extracts, and relates input to output
pointwise in order.
-/

/-- The relation between a raw `errors` key/value pair and the entry data
the generator loop extracts from it. -/
def entrySpec (dl : String) (kv : Yaml × Yaml) (e : GenEntry) : Prop :=
  ∃ n msgsY,
    kv.1.asStr = some n ∧
    (kv.2.idx "code").asI64 = some e.code ∧
    ((kv.2.idx "http_status").asI64).getD 500 = e.httpStatus ∧
    (kv.2.idx "message").asMapping = some msgsY ∧
    e.name = to_pascal_case n ∧
    extractMessages msgsY = Except.ok e.msgs ∧
    e.docMsg = defaultMsg msgsY dl ∧
    e.fallbackMsg = defaultMsg msgsY dl

theorem genEntries_forall₂ (dl : String) :
    ∀ (l : List (Yaml × Yaml)) (es : List GenEntry),
      genEntries dl l = .ok es → List.Forall₂ (entrySpec dl) l es := by
  intro l
  induction l with
  | nil =>
    intro es h
    simp only [genEntries, Except.ok.injEq] at h
    subst h
    exact List.Forall₂.nil
  | cons kv rest ih =>
    intro es h
    obtain ⟨k, v⟩ := kv
    cases hk : k.asStr with
    | none => simp [genEntries, hk] at h
    | some n =>
      cases hc : (v.idx "code").asI64 with
      | none => simp [genEntries, hk, hc] at h
      | some cv =>
        cases hm : (v.idx "message").asMapping with
        | none => simp [genEntries, hk, hc, hm] at h
        | some msgsY =>
          cases hx : extractMessages msgsY with
          | error err => simp [genEntries, hk, hc, hm, hx] at h
          | ok msgs =>
            cases hr : genEntries dl rest with
            | error err => simp [genEntries, hk, hc, hm, hx, hr] at h
            | ok esr =>
              simp only [genEntries, hk, hc, hm, hx, hr, Except.ok.injEq] at h
              subst h
              exact List.Forall₂.cons
                ⟨n, msgsY, hk, hc, rfl, hm, rfl, hx, rfl, rfl⟩ (ih esr hr)

/-- `genEntriesMacro` is `genEntries` followed by the per-entry `as i32` /
`as u16` casts of the proc-macro. -/
def macroCast (e : GenEntry) : GenEntry :=
  { e with code := i64_as_i32 e.code, httpStatus := i64_as_u16 e.httpStatus }

theorem genEntriesMacro_eq (dl : String) :
    ∀ l : List (Yaml × Yaml),
      genEntriesMacro dl l = (genEntries dl l).map (List.map macroCast) := by
  intro l
  induction l with
  | nil => rfl
  | cons kv rest ih =>
    obtain ⟨k, v⟩ := kv
    cases hk : k.asStr with
    | none => simp [genEntriesMacro, genEntries, hk, Except.map]
    | some n =>
      cases hc : (v.idx "code").asI64 with
      | none => simp [genEntriesMacro, genEntries, hk, hc, Except.map]
      | some cv =>
        cases hm : (v.idx "message").asMapping with
        | none => simp [genEntriesMacro, genEntries, hk, hc, hm, Except.map]
        | some msgsY =>
          cases hx : extractMessages msgsY with
          | error err => simp [genEntriesMacro, genEntries, hk, hc, hm, hx, Except.map]
          | ok msgs =>
            cases hr : genEntries dl rest with
            | error err =>
              simp [genEntriesMacro, genEntries, hk, hc, hm, hx, hr, ih, Except.map]
            | ok esr =>
              simp [genEntriesMacro, genEntries, hk, hc, hm, hx, hr, ih, Except.map,
                    macroCast]

theorem forall₂_mem_left {α β : Type} {r : α → β → Prop}
    {l₁ : List α} {l₂ : List β} (h : List.Forall₂ r l₁ l₂) {a : α}
    (ha : a ∈ l₁) : ∃ b, b ∈ l₂ ∧ r a b := by
  induction h with
  | nil => cases ha
  | cons hr _ ih =>
    rcases List.mem_cons.mp ha with rfl | hmem
    · exact ⟨_, List.mem_cons_self _ _, hr⟩
    · obtain ⟨b, hb, hrb⟩ := ih hmem
      exact ⟨b, List.mem_cons_of_mem _ hb, hrb⟩

theorem forall₂_mem_right {α β : Type} {r : α → β → Prop}
    {l₁ : List α} {l₂ : List β} (h : List.Forall₂ r l₁ l₂) {b : β}
    (hb : b ∈ l₂) : ∃ a, a ∈ l₁ ∧ r a b := by
  induction h with
  | nil => cases hb
  | cons hr _ ih =>
    rcases List.mem_cons.mp hb with rfl | hmem
    · exact ⟨_, List.mem_cons_self _ _, hr⟩
    · obtain ⟨a, ha, hra⟩ := ih hmem
      exact ⟨a, List.mem_cons_of_mem _ ha, hra⟩

/-- In an association list with pairwise-distinct keys, `find?` on a key
returns exactly the member carrying that key (first-match lookup is
unambiguous). -/
theorem find?_key_eq {β : Type} :
    ∀ (l : List (String × β)) (k : String) (w : β),
      (l.map Prod.fst).Nodup → (k, w) ∈ l →
      l.find? (fun a => a.1 == k) = some (k, w) := by
  intro l
  induction l with
  | nil => intro k w _ h; cases h
  | cons hd tl ih =>
    intro k w hnd hmem
    rw [List.map_cons, List.nodup_cons] at hnd
    by_cases hk : hd.1 = k
    · have hhd : hd = (k, w) := by
        rcases List.mem_cons.mp hmem with h | h
        · exact h.symm
        · exact absurd (hk ▸ List.mem_map_of_mem Prod.fst h) hnd.1
      rw [hhd]
      exact List.find?_cons_of_pos _ (by simp)
    · have hmem' : (k, w) ∈ tl := by
        rcases List.mem_cons.mp hmem with h | h
        · exact absurd (congrArg Prod.fst h) (fun hx => hk hx.symm)
        · exact h
      rw [List.find?_cons_of_neg _ (by simp [hk])]
      exact ih k w hnd.2 hmem'

/-!
## Lookup lemmas for the generated match expressions

These lemmas capture the first-arm-wins semantics of the generated
`message_lang` match: arms of other variants never match (the variant is
part of the match key), within one variant's block the exact-language
arms are tried in declaration order, and the wildcard arm is last.
-/

/-- The first arm of an entry's block that matches language `L`: the
first exact arm for `L` if that language is declared, else the wildcard. -/
def firstMsgArm (e : GenEntry) (L : String) : MsgArm :=
  match e.msgs.find? (fun p => p.1 == L) with
  | some p => { variant := e.name, lang := some p.1, text := p.2 }
  | none => { variant := e.name, lang := none, text := e.fallbackMsg }

/-- The text the generated `message_lang` produces for an entry at
language `L`: the declared text if `L` is declared, else the fallback. -/
def msgOrFallback (e : GenEntry) (L : String) : String :=
  match e.msgs.find? (fun p => p.1 == L) with
  | some p => p.2
  | none => e.fallbackMsg

/-- First declared text for a language in an extracted message list, or
empty when the language is undeclared. -/
def lookupOrEmpty (msgs : List (String × String)) (dl : String) : String :=
  match msgs.find? (fun p => p.1 == dl) with
  | some p => p.2
  | none => ""

theorem firstMsgArm_text (e : GenEntry) (L : String) :
    (firstMsgArm e L).text = msgOrFallback e L := by
  unfold firstMsgArm msgOrFallback
  cases e.msgs.find? (fun p => p.1 == L) <;> rfl

theorem mem_armsOfEntry_variant {e : GenEntry} {a : MsgArm}
    (h : a ∈ armsOfEntry e) : a.variant = e.name := by
  simp only [armsOfEntry, List.mem_append, List.mem_map, List.mem_singleton] at h
  rcases h with ⟨p, _, rfl⟩ | rfl <;> rfl

/-- Arms contributed by entries whose variant name differs from the
scrutinee's never match: one variant's wildcard cannot shadow another
variant's arms. -/
theorem find?_arms_none {v L : String} {l : List GenEntry}
    (hv : v ∉ l.map GenEntry.name) :
    (l.flatMap armsOfEntry).find? (fun a => armMatches a v L) = none := by
  apply List.find?_eq_none.mpr
  intro a ha
  rcases List.mem_flatMap.mp ha with ⟨e, he, hae⟩
  have hvar := mem_armsOfEntry_variant hae
  have hne : e.name ≠ v := fun h => hv (h ▸ List.mem_map_of_mem GenEntry.name he)
  simp [armMatches, hvar, hne]

/-- Within one entry's block, looking up a language finds the first exact
arm for that language, or the trailing wildcard if no exact arm matches. -/
theorem find?_armsOfEntry (e : GenEntry) (L : String) :
    (armsOfEntry e).find? (fun a => armMatches a e.name L) =
      some (firstMsgArm e L) := by
  obtain ⟨nm, doc, cd, st, msgs, fb⟩ := e
  simp only [armsOfEntry, firstMsgArm]
  induction msgs with
  | nil => simp [armMatches]
  | cons hd tl ih =>
    rw [List.map_cons, List.cons_append, List.find?_cons, List.find?_cons]
    cases hL : (hd.1 == L) with
    | true => simp [armMatches, hL]
    | false =>
      simp only [armMatches, hL, beq_self_eq_true, Bool.true_and]
      exact ih

/-- The generated `message_lang` on a uniquely-named variant: the first
exact arm for the requested language if one is declared, the entry's
fallback text otherwise. -/
theorem message_lang_assemble (dl : String) (es : List GenEntry) (e : GenEntry)
    (hnd : (es.map GenEntry.name).Nodup) (hmem : e ∈ es) (L : String) :
    message_lang_fn (assemble dl es) e.name L = some (msgOrFallback e L) := by
  obtain ⟨s, t, rfl⟩ := List.append_of_mem hmem
  have h1 : (s.map GenEntry.name ++ e.name :: t.map GenEntry.name).Nodup := by
    simpa using hnd
  obtain ⟨-, h2, hdisj⟩ := List.nodup_append.mp h1
  have hs : e.name ∉ s.map GenEntry.name :=
    fun hx => (hdisj hx) (List.mem_cons_self _ _)
  simp only [message_lang_fn, assemble]
  rw [List.flatMap_append, List.find?_append, find?_arms_none hs,
      List.flatMap_cons, List.find?_append, find?_armsOfEntry]
  simp only [Option.none_or, Option.or, Option.map_some']
  rw [firstMsgArm_text]

/-- A language not declared for the entry falls through to the wildcard
arm, producing the fallback text. -/
theorem message_lang_not_declared (dl L : String) (es : List GenEntry)
    (e : GenEntry) (hnd : (es.map GenEntry.name).Nodup) (hmem : e ∈ es)
    (hL : L ∉ e.msgs.map Prod.fst) :
    message_lang_fn (assemble dl es) e.name L = some e.fallbackMsg := by
  rw [message_lang_assemble dl es e hnd hmem L]
  have hnone : e.msgs.find? (fun p => p.1 == L) = none := by
    apply List.find?_eq_none.mpr
    intro p hp
    simp only [beq_iff_eq]
    exact fun hx => hL (hx ▸ List.mem_map_of_mem Prod.fst hp)
  unfold msgOrFallback
  rw [hnone]

/-- The extracted fallback text is the first extracted pair for the
default language, or empty when the default language is undeclared (the
extraction loop preserves `messages.get(default_lang)`). -/
theorem fallback_aligned (dl : String) :
    ∀ (msgsY : List (Yaml × Yaml)) (msgs : List (String × String)),
      extractMessages msgsY = .ok msgs →
      defaultMsg msgsY dl = lookupOrEmpty msgs dl := by
  intro msgsY
  induction msgsY with
  | nil =>
    intro msgs h
    simp only [extractMessages, Except.ok.injEq] at h
    subst h
    rfl
  | cons hd tl ih =>
    intro msgs h
    obtain ⟨lY, mY⟩ := hd
    cases lY with
    | str ls =>
      cases mY with
      | str ms =>
        cases hrest : extractMessages tl with
        | error err => simp [extractMessages, Yaml.asStr, hrest] at h
        | ok restOut =>
          simp only [extractMessages, Yaml.asStr, hrest, Except.ok.injEq] at h
          subst h
          unfold defaultMsg lookupOrEmpty
          rw [List.find?_cons, List.find?_cons]
          cases hls : (ls == dl) with
          | true => simp [Yaml.isStrKey, Yaml.asStr, hls]
          | false =>
            simp only [Yaml.isStrKey, hls]
            exact ih restOut hrest
      | null => simp [extractMessages, Yaml.asStr] at h
      | int i => simp [extractMessages, Yaml.asStr] at h
      | map m => simp [extractMessages, Yaml.asStr] at h
    | null => simp [extractMessages, Yaml.asStr] at h
    | int i => simp [extractMessages, Yaml.asStr] at h
    | map m => simp [extractMessages, Yaml.asStr] at h

/-- Looking the catalog's default language up on a uniquely-named variant
always yields the fallback text (when the default language is declared,
its exact arm carries the same text as the wildcard). -/
theorem message_lang_at_default (dl : String) (es : List GenEntry)
    (e : GenEntry) (hnd : (es.map GenEntry.name).Nodup) (hmem : e ∈ es)
    (halign : e.fallbackMsg = lookupOrEmpty e.msgs dl) :
    message_lang_fn (assemble dl es) e.name dl = some e.fallbackMsg := by
  rw [message_lang_assemble dl es e hnd hmem dl]
  unfold msgOrFallback
  cases hfind : e.msgs.find? (fun p => p.1 == dl) with
  | none => rfl
  | some p =>
    have : e.fallbackMsg = p.2 := by
      rw [halign]
      unfold lookupOrEmpty
      rw [hfind]
    rw [this]

/-!
## Concrete schemas used as test inputs
-/

/-- A schema with one entry `payment_failed` carrying `code: 7`,
`http_status: h` and one English message. -/
def cfgStatus (h : Int) : Yaml :=
  .map [(.str "errors", .map [(.str "payment_failed", .map [
     (.str "code", .int 7), (.str "http_status", .int h),
     (.str "message", .map [(.str "en", .str "PAYMENT FAILED")])])])]

/-- What `generate_from_config` emits for `cfgStatus h`. -/
def genStatus (h : Int) : Generated :=
  { defaultLang := "en"
    variants := [("PAYMENT FAILED", "PaymentFailed")]
    codeArms := [("PaymentFailed", 7)]
    messageArms := [{ variant := "PaymentFailed", lang := some "en", text := "PAYMENT FAILED" },
                    { variant := "PaymentFailed", lang := none, text := "PAYMENT FAILED" }]
    statusArms := [("PaymentFailed", h)]
    allCodes := ["PaymentFailed"] }

/-- A schema whose two raw names `foo_bar` and `foo__bar` both map to the
canonical identifier `FooBar`. -/
def cfgCollide (c₁ c₂ : Int) : Yaml :=
  .map [(.str "errors", .map [
    (.str "foo_bar", .map [(.str "code", .int c₁),
       (.str "message", .map [(.str "en", .str "first entry")])]),
    (.str "foo__bar", .map [(.str "code", .int c₂),
       (.str "message", .map [(.str "en", .str "second entry")])])])]

/-- What `generate_from_config` emits for `cfgCollide c₁ c₂`: both entries
are emitted under the same variant name. -/
def genCollide (c₁ c₂ : Int) : Generated :=
  { defaultLang := "en"
    variants := [("first entry", "FooBar"), ("second entry", "FooBar")]
    codeArms := [("FooBar", c₁), ("FooBar", c₂)]
    messageArms := [{ variant := "FooBar", lang := some "en", text := "first entry" },
                    { variant := "FooBar", lang := none, text := "first entry" },
                    { variant := "FooBar", lang := some "en", text := "second entry" },
                    { variant := "FooBar", lang := none, text := "second entry" }]
    statusArms := [("FooBar", 500), ("FooBar", 500)]
    allCodes := ["FooBar", "FooBar"] }

/-- A schema with one entry whose `message` mapping is present but empty. -/
def cfgEmptyMsg (c : Int) : Yaml :=
  .map [(.str "errors", .map [(.str "ghost", .map [
    (.str "code", .int c), (.str "message", .map [])])])]

/-- What `generate_from_config` emits for `cfgEmptyMsg c`: the entry is
admitted, with only the empty-string wildcard message arm. -/
def genEmptyMsg (c : Int) : Generated :=
  { defaultLang := "en"
    variants := [("", "Ghost")]
    codeArms := [("Ghost", c)]
    messageArms := [{ variant := "Ghost", lang := none, text := "" }]
    statusArms := [("Ghost", 500)]
    allCodes := ["Ghost"] }

/-- A schema with one entry whose declared code exceeds `i32::MAX` by one. -/
def cfgBigCode : Yaml :=
  .map [(.str "errors", .map [(.str "overflow", .map [
    (.str "code", .int 2147483648),
    (.str "message", .map [(.str "en", .str "OVERFLOW")])])])]

/-!
## Claims
-/

/-- Claim C1, counterexample: a schema with `http_status: 999` is NOT
rejected — both front-ends succeed, and the string emitter emits the
status table with the raw value 999, unclamped.  No `StatusOutOfRange`
(or any other) validation error is produced. -/
theorem status_999_not_rejected :
    generate_from_config (cfgStatus 999) = .ok (genStatus 999) ∧
    (genStatus 999).statusArms = [("PaymentFailed", 999)] ∧
    (generate_error_codes_impl (cfgStatus 999)).isOk = true :=
  ⟨rfl, rfl, rfl⟩

/-- Claim C1 (amended): neither front-end performs any status-range
validation; `generate_from_config` accepts every integer `http_status`
value and emits it verbatim into the status table (never clamped, never
rejected), and for a value outside 100–999 the failure instead surfaces
as a runtime panic of the generated code's
`StatusCode::from_u16(...).unwrap()` (modelled as `none`). -/
theorem http_status_emitted_verbatim (h : Int) :
    generate_from_config (cfgStatus h) = .ok (genStatus h) ∧
    (¬(100 ≤ h ∧ h ≤ 999) → http_status_fn (genStatus h) "PaymentFailed" = none) := by
  refine ⟨rfl, fun hout => ?_⟩
  simp [http_status_fn, genStatus, statusCode_from_u16, hout]

/-- Claim C1, witness: at `http_status: 1000` generation still succeeds
and the generated status lookup panics at runtime. -/
theorem http_status_emitted_verbatim_witness :
    generate_from_config (cfgStatus 1000) = .ok (genStatus 1000) ∧
    http_status_fn (genStatus 1000) "PaymentFailed" = none :=
  ⟨(http_status_emitted_verbatim 1000).1,
   (http_status_emitted_verbatim 1000).2 (by decide)⟩

/-- Claim C2, counterexample: the colliding raw names `foo_bar` and
`foo__bar` both canonicalize to `FooBar`, yet the compiler does NOT fail
with any `IdentifierCollision` error: emission proceeds and the generated
output contains the duplicated variant name twice. -/
theorem collision_not_rejected :
    to_pascal_case "foo_bar" = to_pascal_case "foo__bar" ∧
    generate_from_config (cfgCollide 1 2) = .ok (genCollide 1 2) ∧
    (genCollide 1 2).allCodes = ["FooBar", "FooBar"] :=
  ⟨rfl, rfl, rfl⟩

/-- Claim C2 (amended): canonical-identifier collisions are not detected;
for any codes `c₁ c₂` the colliding schema is emitted with the variant
name duplicated in every table (the generated Rust then fails to compile
with a duplicate enum variant), and in the emitted first-match tables the
first entry's arms shadow the second's. -/
theorem collision_emits_duplicate (c₁ c₂ : Int) :
    generate_from_config (cfgCollide c₁ c₂) = .ok (genCollide c₁ c₂) ∧
    (genCollide c₁ c₂).allCodes = ["FooBar", "FooBar"] ∧
    code_fn (genCollide c₁ c₂) "FooBar" = some c₁ :=
  ⟨rfl, rfl, rfl⟩

/-- Claim C8, counterexample: an entry with `message: {}` (present but
with zero language entries) is NOT rejected: generation succeeds and the
entry is admitted into the generated catalog (it appears in
`ALL_ERROR_CODES` and gets an empty-string wildcard message arm). -/
theorem empty_messages_not_rejected :
    generate_from_config (cfgEmptyMsg 42) = .ok (genEmptyMsg 42) ∧
    (genEmptyMsg 42).allCodes = ["Ghost"] :=
  ⟨rfl, rfl⟩

/-- Claim C8 (amended): an empty `message` mapping passes the only check
performed (`as_mapping` succeeding); the entry is emitted with no
exact-language arms and an empty-string fallback, so every message lookup
on it yields the empty string. -/
theorem empty_messages_emitted (c : Int) :
    generate_from_config (cfgEmptyMsg c) = .ok (genEmptyMsg c) ∧
    message_lang_fn (genEmptyMsg c) "Ghost" "en" = some "" ∧
    code_fn (genEmptyMsg c) "Ghost" = some c :=
  ⟨rfl, rfl, rfl⟩

/-- Claim C10: `AppError::new(e).with_msg(m).msg()` returns `m`;
`AppError::new(e).msg()` with no custom message returns the error code's
default-language `message()`; `code()` returns the numeric code in both
cases. -/
theorem app_error_msg_code {E : Type} [ErrorCodeClass E] (e : E) (m : String) :
    ((AppError.new e).with_msg m).msg = m ∧
    (AppError.new e).msg = ErrorCodeClass.message e ∧
    ((AppError.new e).with_msg m).code = ErrorCodeClass.code e ∧
    (AppError.new e).code = ErrorCodeClass.code e :=
  ⟨rfl, rfl, rfl, rfl⟩

/-- A one-variant error code type used to exercise `AppError`. -/
inductive DemoCode : Type where
  | only : DemoCode
deriving Repr, DecidableEq

instance : ErrorCodeClass DemoCode :=
  { code := fun _ => 4000
    message := fun _ => "INVALID PARAMETER"
    message_lang := fun _ _ => "INVALID PARAMETER" }

/-- Claim C10, witness at a concrete error code type and message. -/
theorem app_error_msg_code_witness :
    ((AppError.new DemoCode.only).with_msg "user id must not be empty").msg
        = "user id must not be empty" ∧
    (AppError.new DemoCode.only).msg = ErrorCodeClass.message DemoCode.only ∧
    ((AppError.new DemoCode.only).with_msg "user id must not be empty").code
        = ErrorCodeClass.code DemoCode.only ∧
    (AppError.new DemoCode.only).code = ErrorCodeClass.code DemoCode.only :=
  app_error_msg_code DemoCode.only "user id must not be empty"

/-- Claim C4, counterexample: on a schema whose code 2147483648 exceeds
`i32::MAX`, the two front-ends do NOT perform the same transformation:
the string emitter splices the raw value into the `code()` arm while the
proc-macro emits its `as i32` truncation, so the generated code mappings
differ. -/
theorem frontends_differ_on_i32_overflow :
    (generate_from_config cfgBigCode).map Generated.codeArms =
      .ok [("Overflow", 2147483648)] ∧
    (generate_error_codes_impl cfgBigCode).map Generated.codeArms =
      .ok [("Overflow", -2147483648)] ∧
    generate_from_config cfgBigCode ≠ generate_error_codes_impl cfgBigCode := by
  refine ⟨rfl, rfl, fun h => ?_⟩
  have h2 : (Except.ok [("Overflow", (2147483648 : Int))]
      : Except String (List (String × Int))) = .ok [("Overflow", -2147483648)] := by
    calc (Except.ok [("Overflow", (2147483648 : Int))] : Except String (List (String × Int)))
        = (generate_from_config cfgBigCode).map Generated.codeArms := rfl
      _ = (generate_error_codes_impl cfgBigCode).map Generated.codeArms := by rw [h]
      _ = .ok [("Overflow", -2147483648)] := rfl
  simp only [Except.ok.injEq, List.cons.injEq, Prod.mk.injEq] at h2
  exact absurd h2.1.2 (by decide)

/-- Claim C4 (amended): the two front-ends perform the same transformation
on every schema whose codes all fit in `i32` and whose statuses all fit in
`u16` — variant names, code arms, message arms (including fallbacks),
status arms and `ALL_ERROR_CODES` all coincide; outside those ranges they
differ exactly by the proc-macro's modular truncation. -/
theorem frontends_agree_in_range (config : Yaml) (errs : List (Yaml × Yaml))
    (es : List GenEntry)
    (herrs : (config.idx "errors").asMapping = some errs)
    (hgen : genEntries (((config.idx "default_language").asStr).getD "en") errs
      = .ok es)
    (hrange : ∀ e ∈ es, -(2 ^ 31) ≤ e.code ∧ e.code < 2 ^ 31 ∧
      0 ≤ e.httpStatus ∧ e.httpStatus < 2 ^ 16) :
    generate_from_config config =
      .ok (assemble (((config.idx "default_language").asStr).getD "en") es) ∧
    generate_error_codes_impl config = generate_from_config config := by
  set dl := ((config.idx "default_language").asStr).getD "en" with hdl
  have hcast : es.map macroCast = es := by
    have hid : ∀ e ∈ es, macroCast e = id e := by
      intro e he
      obtain ⟨h1, h2, h3, h4⟩ := hrange e he
      have hc : i64_as_i32 e.code = e.code := by
        unfold i64_as_i32
        rw [Int.emod_eq_of_lt (by linarith) (by linarith)]
        ring
      have hs : i64_as_u16 e.httpStatus = e.httpStatus :=
        Int.emod_eq_of_lt h3 h4
      unfold macroCast
      rw [hc, hs]
      rfl
    rw [List.map_congr_left hid, List.map_id]
  have hmac : genEntriesMacro dl errs = .ok es := by
    rw [genEntriesMacro_eq, hgen]
    simp [Except.map, hcast]
  refine ⟨by simp [generate_from_config, herrs, hgen], ?_⟩
  simp [generate_from_config, generate_error_codes_impl, herrs, hgen, hmac]

/-- The spec's worked example schema: `default_language: en`, entries
`success` (code 0, status 200, messages en + zh-CN) and `invalid_param`
(code 4000, message en only).  `zh-CN` is replaced by the ASCII tag `zh`
to stay within the ASCII modelling of `to_pascal_case`. -/
def cfgExample : Yaml :=
  .map [(.str "default_language", .str "en"),
        (.str "errors", .map [
          (.str "success", .map [(.str "code", .int 0), (.str "http_status", .int 200),
             (.str "message", .map [(.str "en", .str "SUCCESS"), (.str "zh", .str "OK")])]),
          (.str "invalid_param", .map [(.str "code", .int 4000),
             (.str "message", .map [(.str "en", .str "INVALID PARAMETER")])])])]

/-- The `errors` mapping of `cfgExample`. -/
def errsExample : List (Yaml × Yaml) :=
  [(.str "success", .map [(.str "code", .int 0), (.str "http_status", .int 200),
      (.str "message", .map [(.str "en", .str "SUCCESS"), (.str "zh", .str "OK")])]),
   (.str "invalid_param", .map [(.str "code", .int 4000),
      (.str "message", .map [(.str "en", .str "INVALID PARAMETER")])])]

/-- Extracted entry data for `success`. -/
def entrySuccess : GenEntry :=
  { name := "Success", docMsg := "SUCCESS", code := 0, httpStatus := 200,
    msgs := [("en", "SUCCESS"), ("zh", "OK")], fallbackMsg := "SUCCESS" }

/-- Extracted entry data for `invalid_param`. -/
def entryInvalidParam : GenEntry :=
  { name := "InvalidParam", docMsg := "INVALID PARAMETER", code := 4000,
    httpStatus := 500, msgs := [("en", "INVALID PARAMETER")],
    fallbackMsg := "INVALID PARAMETER" }

/-- The entry list `generate_from_config` extracts from `cfgExample`. -/
def esExample : List GenEntry := [entrySuccess, entryInvalidParam]

/-- Claim C4, witness: on the example schema (codes 0 and 4000, statuses
200 and 500, all in range) the two front-ends emit identical output. -/
theorem frontends_agree_in_range_witness :
    generate_from_config cfgExample = .ok (assemble "en" esExample) ∧
    generate_error_codes_impl cfgExample = generate_from_config cfgExample :=
  frontends_agree_in_range cfgExample errsExample esExample rfl rfl (by decide)

/-- Claim C3: for every entry of a valid schema (valid meaning generation
succeeds and the derived canonical names are pairwise distinct) with raw
name `n` and declared code `cv`, the generated `code()` function applied
to the variant derived from `n` returns exactly `cv`. -/
theorem code_roundtrip (config : Yaml) (errs : List (Yaml × Yaml))
    (es : List GenEntry) (k v : Yaml) (n : String) (cv : Int)
    (herrs : (config.idx "errors").asMapping = some errs)
    (hgen : genEntries (((config.idx "default_language").asStr).getD "en") errs
      = .ok es)
    (hnd : (es.map GenEntry.name).Nodup)
    (hkv : (k, v) ∈ errs)
    (hname : k.asStr = some n)
    (hcode : (v.idx "code").asI64 = some cv) :
    generate_from_config config =
      .ok (assemble (((config.idx "default_language").asStr).getD "en") es) ∧
    code_fn (assemble (((config.idx "default_language").asStr).getD "en") es)
      (to_pascal_case n) = some cv := by
  set dl := ((config.idx "default_language").asStr).getD "en" with hdl
  have hfa := genEntries_forall₂ dl errs es hgen
  obtain ⟨e, hees, hspec⟩ := forall₂_mem_left hfa hkv
  obtain ⟨n', msgsY, hn', hc', hh', hm', hnm, hx', hdoc, hfb⟩ := hspec
  have hn0 : k.asStr = some n' := hn'
  rw [hname] at hn0
  have hn : n' = n := (Option.some.inj hn0).symm
  have hc0 : (v.idx "code").asI64 = some e.code := hc'
  rw [hcode] at hc0
  have hcv : e.code = cv := (Option.some.inj hc0).symm
  have hen : e.name = to_pascal_case n := by rw [hnm, hn]
  refine ⟨by simp [generate_from_config, herrs, hgen], ?_⟩
  simp only [code_fn, assemble]
  have hmemArm : (e.name, e.code) ∈ es.map (fun x => (x.name, x.code)) :=
    List.mem_map_of_mem _ hees
  have hndArm : ((es.map (fun x => (x.name, x.code))).map Prod.fst).Nodup := by
    rw [List.map_map]
    exact hnd
  have hfind := find?_key_eq _ e.name e.code hndArm hmemArm
  rw [← hen, hfind]
  simp [hcv]

/-- Claim C3, witness: on the example schema,
`code(variant_for("invalid_param")) = 4000`. -/
theorem code_roundtrip_witness :
    generate_from_config cfgExample = .ok (assemble "en" esExample) ∧
    code_fn (assemble "en" esExample) (to_pascal_case "invalid_param")
      = some 4000 :=
  code_roundtrip cfgExample errsExample esExample
    (.str "invalid_param")
    (.map [(.str "code", .int 4000),
           (.str "message", .map [(.str "en", .str "INVALID PARAMETER")])])
    "invalid_param" 4000 rfl rfl (by decide) (by simp [errsExample]) rfl rfl

/-- Claim C5: for every entry of a valid schema and every language `L`
not declared for that entry, the generated `message_lang` returns the
same text at `L` as at the catalog's default language; structurally, the
entry's wildcard arm comes after all its exact-language arms, and no arm
of the entry can match another variant (the variant is part of the match
key), so the wildcard never shadows another variant's arms. -/
theorem message_fallback (config : Yaml) (errs : List (Yaml × Yaml))
    (es : List GenEntry) (e : GenEntry) (L : String)
    (herrs : (config.idx "errors").asMapping = some errs)
    (hgen : genEntries (((config.idx "default_language").asStr).getD "en") errs
      = .ok es)
    (hnd : (es.map GenEntry.name).Nodup)
    (hmem : e ∈ es)
    (hL : L ∉ e.msgs.map Prod.fst) :
    generate_from_config config =
      .ok (assemble (((config.idx "default_language").asStr).getD "en") es) ∧
    message_lang_fn (assemble (((config.idx "default_language").asStr).getD "en") es)
        e.name L =
      message_lang_fn (assemble (((config.idx "default_language").asStr).getD "en") es)
        e.name (((config.idx "default_language").asStr).getD "en") ∧
    armsOfEntry e =
      (e.msgs.map (fun p => { variant := e.name, lang := some p.1, text := p.2 }))
        ++ [{ variant := e.name, lang := none, text := e.fallbackMsg }] ∧
    (∀ a ∈ armsOfEntry e, a.variant = e.name) := by
  set dl := ((config.idx "default_language").asStr).getD "en" with hdl
  refine ⟨by simp [generate_from_config, herrs, hgen], ?_, rfl,
          fun a ha => mem_armsOfEntry_variant ha⟩
  have hfa := genEntries_forall₂ dl errs es hgen
  obtain ⟨kv, hkvmem, hspec⟩ := forall₂_mem_right hfa hmem
  obtain ⟨n', msgsY, hn', hc', hh', hm', hnm, hx', hdoc, hfb⟩ := hspec
  have halign : e.fallbackMsg = lookupOrEmpty e.msgs dl := by
    rw [hfb]
    exact fallback_aligned dl msgsY e.msgs hx'
  rw [message_lang_not_declared dl L es e hnd hmem hL,
      message_lang_at_default dl es e hnd hmem halign]

/-- Claim C5, witness: on the example schema, looking `InvalidParam` up
at the undeclared language `zh` gives the same text as at `en`. -/
theorem message_fallback_witness :
    generate_from_config cfgExample = .ok (assemble "en" esExample) ∧
    message_lang_fn (assemble "en" esExample) entryInvalidParam.name "zh" =
      message_lang_fn (assemble "en" esExample) entryInvalidParam.name "en" ∧
    armsOfEntry entryInvalidParam =
      (entryInvalidParam.msgs.map (fun p =>
        { variant := entryInvalidParam.name, lang := some p.1, text := p.2 }))
        ++ [{ variant := entryInvalidParam.name, lang := none,
              text := entryInvalidParam.fallbackMsg }] ∧
    (∀ a ∈ armsOfEntry entryInvalidParam, a.variant = entryInvalidParam.name) :=
  message_fallback cfgExample errsExample esExample entryInvalidParam "zh"
    rfl rfl (by decide) (by simp [esExample]) (by decide)

/-- A schema whose sole entry `gap` declares no message for the default
language `en` (only `fr`). -/
def cfgGap : Yaml :=
  .map [(.str "errors", .map [(.str "gap", .map [(.str "code", .int 1),
     (.str "message", .map [(.str "fr", .str "ECHEC")])])])]

/-- The `errors` mapping of `cfgGap`. -/
def errsGap : List (Yaml × Yaml) :=
  [(.str "gap", .map [(.str "code", .int 1),
     (.str "message", .map [(.str "fr", .str "ECHEC")])])]

/-- Extracted entry data for `gap`: the fallback text is empty because
`en` is not declared. -/
def entryGap : GenEntry :=
  { name := "Gap", docMsg := "", code := 1, httpStatus := 500,
    msgs := [("fr", "ECHEC")], fallbackMsg := "" }

/-- The entry list `generate_from_config` extracts from `cfgGap`. -/
def esGap : List GenEntry := [entryGap]

/-- Claim C6: if an entry's `messages` does not contain the catalog's
default language, every lookup with a language not declared for that
entry returns the empty string — the fallback-to-empty behaviour is
preserved, not upgraded to an error (generation succeeds). -/
theorem default_language_gap (config : Yaml) (errs : List (Yaml × Yaml))
    (es : List GenEntry) (e : GenEntry) (L : String)
    (herrs : (config.idx "errors").asMapping = some errs)
    (hgen : genEntries (((config.idx "default_language").asStr).getD "en") errs
      = .ok es)
    (hnd : (es.map GenEntry.name).Nodup)
    (hmem : e ∈ es)
    (hdlmiss : (((config.idx "default_language").asStr).getD "en")
      ∉ e.msgs.map Prod.fst)
    (hL : L ∉ e.msgs.map Prod.fst) :
    generate_from_config config =
      .ok (assemble (((config.idx "default_language").asStr).getD "en") es) ∧
    message_lang_fn (assemble (((config.idx "default_language").asStr).getD "en") es)
      e.name L = some "" := by
  set dl := ((config.idx "default_language").asStr).getD "en" with hdl
  refine ⟨by simp [generate_from_config, herrs, hgen], ?_⟩
  have hfa := genEntries_forall₂ dl errs es hgen
  obtain ⟨kv, hkvmem, hspec⟩ := forall₂_mem_right hfa hmem
  obtain ⟨n', msgsY, hn', hc', hh', hm', hnm, hx', hdoc, hfb⟩ := hspec
  have hnonedl : e.msgs.find? (fun p => p.1 == dl) = none := by
    apply List.find?_eq_none.mpr
    intro p hp
    simp only [beq_iff_eq]
    exact fun hx => hdlmiss (hx ▸ List.mem_map_of_mem Prod.fst hp)
  have hfb0 : e.fallbackMsg = "" := by
    rw [hfb, fallback_aligned dl msgsY e.msgs hx']
    unfold lookupOrEmpty
    rw [hnonedl]
  rw [message_lang_not_declared dl L es e hnd hmem hL, hfb0]

/-- Claim C6, witness: on `cfgGap` (default language `en` undeclared for
the entry), looking `Gap` up at the undeclared `de` yields the empty
string. -/
theorem default_language_gap_witness :
    generate_from_config cfgGap = .ok (assemble "en" esGap) ∧
    message_lang_fn (assemble "en" esGap) entryGap.name "de" = some "" :=
  default_language_gap cfgGap errsGap esGap entryGap "de"
    rfl rfl (by decide) (by simp [esGap]) (by decide) (by decide)

/-- Claim C7: `ALL_ERROR_CODES` lists the variants in exactly the
schema's declaration order — it is built by mapping canonical-identifier
derivation over the `errors` entries in document order — and under the
validity assumption of pairwise-distinct canonical names it contains
exactly one representative of every variant. -/
theorem all_codes_declaration_order (config : Yaml) (errs : List (Yaml × Yaml))
    (es : List GenEntry)
    (herrs : (config.idx "errors").asMapping = some errs)
    (hgen : genEntries (((config.idx "default_language").asStr).getD "en") errs
      = .ok es) :
    generate_from_config config =
      .ok (assemble (((config.idx "default_language").asStr).getD "en") es) ∧
    (assemble (((config.idx "default_language").asStr).getD "en") es).allCodes
      = es.map GenEntry.name ∧
    List.Forall₂ (fun (kv : Yaml × Yaml) (e : GenEntry) =>
      (kv.1.asStr).map to_pascal_case = some e.name) errs es ∧
    ((es.map GenEntry.name).Nodup →
      (assemble (((config.idx "default_language").asStr).getD "en") es).allCodes.Nodup) := by
  refine ⟨by simp [generate_from_config, herrs, hgen], rfl, ?_, fun h => h⟩
  have hfa := genEntries_forall₂ _ errs es hgen
  refine List.Forall₂.imp ?_ hfa
  intro kv e hspec
  obtain ⟨n', msgsY, hn', hc', hh', hm', hnm, hx', hdoc, hfb⟩ := hspec
  rw [hn', hnm]
  rfl

/-- Claim C7, witness: on the example schema `ALL_ERROR_CODES` is
`[Success, InvalidParam]`, in declaration order, without duplicates. -/
theorem all_codes_declaration_order_witness :
    generate_from_config cfgExample = .ok (assemble "en" esExample) ∧
    (assemble "en" esExample).allCodes = esExample.map GenEntry.name ∧
    List.Forall₂ (fun (kv : Yaml × Yaml) (e : GenEntry) =>
      (kv.1.asStr).map to_pascal_case = some e.name) errsExample esExample ∧
    ((esExample.map GenEntry.name).Nodup →
      (assemble "en" esExample).allCodes.Nodup) :=
  all_codes_declaration_order cfgExample errsExample esExample rfl rfl

/-- A schema whose sole entry declares `code: 5000000000` (outside `i32`)
and `http_status: 70000` (outside `u16`). -/
def cfgWide : Yaml :=
  .map [(.str "errors", .map [(.str "wide", .map [
    (.str "code", .int 5000000000), (.str "http_status", .int 70000),
    (.str "message", .map [(.str "en", .str "WIDE")])])])]

/-- The `errors` mapping of `cfgWide`. -/
def errsWide : List (Yaml × Yaml) :=
  [(.str "wide", .map [
    (.str "code", .int 5000000000), (.str "http_status", .int 70000),
    (.str "message", .map [(.str "en", .str "WIDE")])])]

/-- Entry data the proc-macro extracts from `cfgWide`: `5000000000 as i32
= 705032704` and `70000 as u16 = 4464`. -/
def esWide : List GenEntry :=
  [{ name := "Wide", docMsg := "WIDE", code := 705032704, httpStatus := 4464,
     msgs := [("en", "WIDE")], fallbackMsg := "WIDE" }]

/-- Claim C9: the proc-macro front-end casts each declared code with
`as i32` and each declared status with `as u16` before emission, so for
any declared values — including ones outside those ranges — emission
succeeds and the generated lookups return the two's-complement / modular
truncations of the declared values, never an error. -/
theorem macro_casts_truncate (config : Yaml) (errs : List (Yaml × Yaml))
    (es : List GenEntry) (k v : Yaml) (n : String) (cv hs : Int)
    (herrs : (config.idx "errors").asMapping = some errs)
    (hgen : genEntriesMacro (((config.idx "default_language").asStr).getD "en") errs
      = .ok es)
    (hnd : (es.map GenEntry.name).Nodup)
    (hkv : (k, v) ∈ errs)
    (hname : k.asStr = some n)
    (hcode : (v.idx "code").asI64 = some cv)
    (hstatus : ((v.idx "http_status").asI64).getD 500 = hs) :
    generate_error_codes_impl config =
      .ok (assemble (((config.idx "default_language").asStr).getD "en") es) ∧
    code_fn (assemble (((config.idx "default_language").asStr).getD "en") es)
      (to_pascal_case n) = some (i64_as_i32 cv) ∧
    (assemble (((config.idx "default_language").asStr).getD "en") es).statusArms.find?
        (fun a => a.1 == to_pascal_case n) =
      some (to_pascal_case n, i64_as_u16 hs) := by
  set dl := ((config.idx "default_language").asStr).getD "en" with hdl
  have hmac := genEntriesMacro_eq dl errs
  rw [hgen] at hmac
  cases hg0 : genEntries dl errs with
  | error err =>
    rw [hg0] at hmac
    simp [Except.map] at hmac
  | ok es₀ =>
    rw [hg0] at hmac
    simp only [Except.map, Except.ok.injEq] at hmac
    subst hmac
    have hfa := genEntries_forall₂ dl errs es₀ hg0
    obtain ⟨e₀, he₀, hspec⟩ := forall₂_mem_left hfa hkv
    obtain ⟨n', msgsY, hn', hc', hh', hm', hnm, hx', hdoc, hfb⟩ := hspec
    have hn0 : k.asStr = some n' := hn'
    rw [hname] at hn0
    have hn : n' = n := (Option.some.inj hn0).symm
    have hc0 : (v.idx "code").asI64 = some e₀.code := hc'
    rw [hcode] at hc0
    have hcv : e₀.code = cv := (Option.some.inj hc0).symm
    have hh0 : ((v.idx "http_status").asI64).getD 500 = e₀.httpStatus := hh'
    rw [hstatus] at hh0
    have hhs : e₀.httpStatus = hs := hh0.symm
    have hees : macroCast e₀ ∈ es₀.map macroCast := List.mem_map_of_mem _ he₀
    have hename : (macroCast e₀).name = to_pascal_case n := by
      show e₀.name = to_pascal_case n
      rw [hnm, hn]
    refine ⟨by simp [generate_error_codes_impl, herrs, hgen], ?_, ?_⟩
    · simp only [code_fn, assemble]
      have hmemArm : ((macroCast e₀).name, (macroCast e₀).code)
          ∈ (es₀.map macroCast).map (fun x => (x.name, x.code)) :=
        List.mem_map_of_mem _ hees
      have hndArm : (((es₀.map macroCast).map (fun x => (x.name, x.code))).map
          Prod.fst).Nodup := by
        rw [List.map_map]
        exact hnd
      have hfind := find?_key_eq _ (macroCast e₀).name (macroCast e₀).code
        hndArm hmemArm
      rw [← hename, hfind]
      show some (i64_as_i32 e₀.code) = some (i64_as_i32 cv)
      rw [hcv]
    · simp only [assemble]
      have hmemArm : ((macroCast e₀).name, (macroCast e₀).httpStatus)
          ∈ (es₀.map macroCast).map (fun x => (x.name, x.httpStatus)) :=
        List.mem_map_of_mem _ hees
      have hndArm : (((es₀.map macroCast).map (fun x => (x.name, x.httpStatus))).map
          Prod.fst).Nodup := by
        rw [List.map_map]
        exact hnd
      have hfind := find?_key_eq _ (macroCast e₀).name (macroCast e₀).httpStatus
        hndArm hmemArm
      rw [← hename, hfind]
      show some ((macroCast e₀).name, i64_as_u16 e₀.httpStatus)
        = some ((macroCast e₀).name, i64_as_u16 hs)
      rw [hhs]

/-- Claim C9, witness: on `cfgWide` the proc-macro emits
`code = 5000000000 as i32 = 705032704` and
`status = 70000 as u16 = 4464`, with no error. -/
theorem macro_casts_truncate_witness :
    generate_error_codes_impl cfgWide = .ok (assemble "en" esWide) ∧
    code_fn (assemble "en" esWide) (to_pascal_case "wide")
      = some (i64_as_i32 5000000000) ∧
    (assemble "en" esWide).statusArms.find?
        (fun a => a.1 == to_pascal_case "wide")
      = some (to_pascal_case "wide", i64_as_u16 70000) :=
  macro_casts_truncate cfgWide errsWide esWide
    (.str "wide")
    (.map [(.str "code", .int 5000000000), (.str "http_status", .int 70000),
           (.str "message", .map [(.str "en", .str "WIDE")])])
    "wide" 5000000000 70000 rfl rfl (by decide) (by simp [errsWide]) rfl rfl rfl
